import Mathlib

/-!
Verification of the core logic of `react-hook-storage`.

The repository's logic lives in `src/hooks/useStorage.ts(x)` (bundled in
`src/providers/StorageProvider.tsx` in this snapshot), `src/contexts/StorageContext.ts`
and `src/hooks/useStorageContext.ts`:

* `parseString` — the value-coercion routine (JSON parse, then `parseFloat` with an
  `isNaN` guard, then the `"true"`/`"false"` literals, then identity);
* `useStorage` — the synchronized value cell: an initialization effect, a getter that
  compares the cached string (`raw`) with the current `localStorage` snapshot and
  throws a consistency error on mismatch, and a setter that persists `String(value)`;
* `StorageContext` / `useStorageContext` — the shared-cell broadcaster, a React context
  whose default value is the empty tuple `[]`.

The embedding models JavaScript numbers as `JNum` (a rational together with the
special values `NaN` and `±Infinity`; JS doubles are dyadic rationals, so the exact
rational arithmetic used here agrees with JS up to floating-point rounding, which is
the idealization the spec itself allows for "floating-point formatting precision").
JSON values are the inductive `Json`, JS runtime values are `JSValue`, the
`localStorage` backend is an association list, and the cell's React state is the
explicit `Option String` (`undefined` before the initialization effect has run).
-/

/-- JSON values, the possible results of `JSON.parse`. Object fields are kept in
source order (JavaScript keeps the last duplicate; no claim exercises duplicates). -/
inductive Json where
  | null
  | bool (b : Bool)
  | num (q : ℚ)
  | str (s : String)
  | arr (elems : List Json)
  | obj (fields : List (String × Json))

/-- The JavaScript test `typeof parsedObject === "object" && parsedObject !== null`
from `parseString` (StorageProvider.tsx lines 87-90): among `JSON.parse` results,
exactly arrays and objects satisfy it. -/
def Json.isComposite : Json → Bool
  | .arr _ => true
  | .obj _ => true
  | _ => false

/-- JavaScript numbers: a finite value (exact rational, idealizing double rounding)
or one of the specials `NaN`, `Infinity`, `-Infinity`. -/
inductive JNum where
  | finite (q : ℚ)
  | posInf
  | negInf
  | nan
deriving DecidableEq

/-- `Number.isFinite` on a `JNum`. -/
def JNum.isFinite : JNum → Bool
  | .finite _ => true
  | _ => false

/-- JavaScript unary minus on numbers. -/
def JNum.neg : JNum → JNum
  | .finite q => .finite (-q)
  | .posInf => .negInf
  | .negInf => .posInf
  | .nan => .nan

/-- Numeric value of a decimal digit character. -/
def digitToNat (c : Char) : ℕ := c.toNat - 48

/-- Value of a most-significant-first string of decimal digit characters. -/
def digitsToNat (ds : List Char) : ℕ := ds.foldl (fun a c => 10 * a + digitToNat c) 0

/-- Whitespace accepted (and skipped) in front of a `parseFloat` argument.
JS also strips some exotic Unicode spaces; only the ASCII ones are modelled. -/
def isWsChar (c : Char) : Bool :=
  c = ' ' ∨ c = '\t' ∨ c = '\n' ∨ c = '\r' ∨ c = '\x0b' ∨ c = '\x0c'

/-- Consume an optional sign; `true` means negative. -/
def readSign (cs : List Char) : Bool × List Char :=
  match cs with
  | c :: rest =>
    if c = '-' then (true, rest)
    else if c = '+' then (false, rest)
    else (false, cs)
  | [] => (false, [])

/-- Multiply a rational by `10 ^ e` for a signed exponent `e`. -/
def applyExp (q : ℚ) (e : ℤ) : ℚ := if 0 ≤ e then q * 10 ^ e.toNat else q / 10 ^ (-e).toNat

/-- The optional exponent part of a `parseFloat` literal. `parseFloat` takes the
longest valid prefix, so an `e` not followed by a digit contributes nothing. -/
def parseExpPart (cs : List Char) : ℤ :=
  match cs with
  | c :: rest =>
    if c = 'e' ∨ c = 'E' then
      let sp := readSign rest
      let ds := sp.2.takeWhile Char.isDigit
      if ds.isEmpty then 0
      else if sp.1 then -(digitsToNat ds : ℤ) else (digitsToNat ds : ℤ)
    else 0
  | [] => 0

/-- The fractional part: a `'.'` followed by any (possibly empty) run of digits;
`parseFloat("3.")` is `3`, so an empty run after the dot is still a valid prefix. -/
def splitFrac (cs : List Char) : List Char × List Char :=
  match cs with
  | c :: r =>
    if c = '.' then (r.takeWhile Char.isDigit, r.drop (r.takeWhile Char.isDigit).length)
    else ([], cs)
  | [] => ([], [])

/-- Unsigned magnitude of a `parseFloat` literal: the `Infinity` literal, or
digits with optional fraction and exponent, parsed as the longest valid prefix.
`JNum.nan` signals that no prefix of the input is a valid literal. -/
def parseFloatMag (cs : List Char) : JNum :=
  if cs.take 8 = "Infinity".toList then JNum.posInf
  else
    let ip := cs.takeWhile Char.isDigit
    let rest := cs.drop ip.length
    let fr := splitFrac rest
    if ip.isEmpty && fr.1.isEmpty then JNum.nan
    else
      let e := parseExpPart fr.2
      JNum.finite (applyExp ((digitsToNat ip : ℚ) + (digitsToNat fr.1 : ℚ) / 10 ^ fr.1.length) e)

/-- Model of JavaScript `parseFloat` (StorageProvider.tsx line 96): skip leading
whitespace, read an optional sign, then the longest prefix that is a decimal
literal or `Infinity`; `NaN` when there is none. A string like `"3abc"` parses
to `3`; trailing junk is ignored. -/
def parseFloat (s : String) : JNum :=
  let cs := s.toList.dropWhile isWsChar
  let sp := readSign cs
  let m := parseFloatMag sp.2
  if sp.1 then m.neg else m

/-- Little-endian base-10 digits of `n`, with explicit fuel so that the definition
is structural (hence kernel-evaluable); `natToDigitsRev n n` agrees with
`Nat.digits 10 n`. -/
def natToDigitsRev : ℕ → ℕ → List ℕ
  | 0, _ => []
  | fuel+1, n => if n = 0 then [] else n % 10 :: natToDigitsRev fuel (n / 10)

/-- Most-significant-first decimal digit characters of `n` (empty for `0`). -/
def natDigitChars (n : ℕ) : List Char := ((natToDigitsRev n n).map Nat.digitChar).reverse

/-- Left-pad a digit string with `'0'` up to length `len`. -/
def padZeros (len : ℕ) (ds : List Char) : List Char := List.replicate (len - ds.length) '0' ++ ds

/-- Decimal rendering of the non-negative value `n / 10 ^ k`: the digit string of
`n` padded to at least `k + 1` digits, with a decimal point `k` digits from the
right (and no point at all when `k = 0`, as in JavaScript `String(3) = "3"`). -/
def renderDecCharsNat (n k : ℕ) : List Char :=
  let ds := padZeros (k + 1) (natDigitChars n)
  ds.take (ds.length - k) ++ (if k = 0 then [] else '.' :: ds.drop (ds.length - k))

/-- Decimal rendering of `m / 10 ^ k` with a leading `'-'` for negative `m`. -/
def renderDecimal (m : ℤ) (k : ℕ) : String :=
  ⟨(if m < 0 then ['-'] else []) ++ renderDecCharsNat m.natAbs k⟩

/-- Count (up to `fuel`) how many times the prime `p` divides `n`. -/
def countFactor : ℕ → ℕ → ℕ → ℕ
  | 0, _, _ => 0
  | fuel+1, p, n => if 2 ≤ p ∧ p ∣ n ∧ n ≠ 0 then countFactor fuel p (n / p) + 1 else 0

/-- The decimal exponent of a rational: the least `k` with `q.den ∣ 10 ^ k` when the
denominator is of the form `2^a * 5^b` (every JS double is such a rational). -/
def decExp (q : ℚ) : ℕ := max (countFactor q.den 2 q.den) (countFactor q.den 5 q.den)

/-- The integer `q * 10 ^ decExp q` (exact whenever `q.den ∣ 10 ^ decExp q`). -/
def decMantissa (q : ℚ) : ℤ := q.num * ((10 ^ decExp q / q.den : ℕ) : ℤ)

/-- Model of JavaScript `String(n)` for a number `n`. Finite values are rendered as
plain signed decimals; JS switches to exponent notation outside `[1e-6, 1e21)`, a
surface-format difference that `parseFloat` maps back to the same value, so the
round-trip facts proved below hold for both renderings. -/
def jnumToString : JNum → String
  | .nan => "NaN"
  | .posInf => "Infinity"
  | .negInf => "-Infinity"
  | .finite q => renderDecimal (decMantissa q) (decExp q)

/-- JSON whitespace (the only four whitespace characters JSON allows). -/
def jskipWs (cs : List Char) : List Char :=
  cs.dropWhile (fun c => c = ' ' ∨ c = '\t' ∨ c = '\n' ∨ c = '\r')

/-- Value of a hexadecimal digit character. -/
def hexVal (c : Char) : Option ℕ :=
  if '0' ≤ c ∧ c ≤ '9' then some (c.toNat - 48)
  else if 'a' ≤ c ∧ c ≤ 'f' then some (c.toNat - 87)
  else if 'A' ≤ c ∧ c ≤ 'F' then some (c.toNat - 55)
  else none

/-- Body of a JSON string literal after the opening quote: characters and escapes up
to the closing quote. `\uXXXX` becomes the scalar `Char.ofNat` of its code (pairing
of UTF-16 surrogates is not modelled; no persisted value in the claims uses it).
Unescaped control characters are invalid, as in JSON. -/
def parseJString : List Char → List Char → Option (String × List Char)
  | _, [] => none
  | acc, c :: rest =>
    if c = '"' then some (⟨acc.reverse⟩, rest)
    else if c = '\\' then
      match rest with
      | [] => none
      | e :: rest2 =>
        if e = '"' then parseJString ('"' :: acc) rest2
        else if e = '\\' then parseJString ('\\' :: acc) rest2
        else if e = '/' then parseJString ('/' :: acc) rest2
        else if e = 'b' then parseJString ('\x08' :: acc) rest2
        else if e = 'f' then parseJString ('\x0c' :: acc) rest2
        else if e = 'n' then parseJString ('\n' :: acc) rest2
        else if e = 'r' then parseJString ('\r' :: acc) rest2
        else if e = 't' then parseJString ('\t' :: acc) rest2
        else if e = 'u' then
          match rest2 with
          | h1 :: h2 :: h3 :: h4 :: rest3 =>
            match hexVal h1, hexVal h2, hexVal h3, hexVal h4 with
            | some a, some b, some c2, some d =>
              parseJString (Char.ofNat (((a * 16 + b) * 16 + c2) * 16 + d) :: acc) rest3
            | _, _, _, _ => none
          | _ => none
        else none
    else if c.toNat < 32 then none
    else parseJString (c :: acc) rest

/-- Consume a leading `'-'` if present; `true` means negative. -/
def readNegSign : List Char → Bool × List Char
  | '-' :: r => (true, r)
  | cs => (false, cs)

/-- A JSON number: strict grammar — an optional `'-'`, an integer part without
leading zeros, an optional fraction that must contain a digit, an optional exponent
that must contain a digit. Unlike `parseFloat` this consumes no "longest valid
prefix": any malformed part makes the whole parse fail. -/
def parseJNumber (cs : List Char) : Option (ℚ × List Char) :=
  let sp := readNegSign cs
  let ip := sp.2.takeWhile Char.isDigit
  if ip.isEmpty then none
  else if 1 < ip.length ∧ ip.head? = some '0' then none
  else
    let r1 := sp.2.drop ip.length
    let fr : Option (List Char × List Char) :=
      match r1 with
      | c :: r =>
        if c = '.' then
          let fp := r.takeWhile Char.isDigit
          if fp.isEmpty then none else some (fp, r.drop fp.length)
        else some ([], r1)
      | [] => some ([], [])
    match fr with
    | none => none
    | some (fp, r2) =>
      let ex : Option (ℤ × List Char) :=
        match r2 with
        | c :: r =>
          if c = 'e' ∨ c = 'E' then
            let sp2 := readSign r
            let eds := sp2.2.takeWhile Char.isDigit
            if eds.isEmpty then none
            else some ((if sp2.1 then -(digitsToNat eds : ℤ) else (digitsToNat eds : ℤ)),
              sp2.2.drop eds.length)
          else some (0, r2)
        | [] => some (0, r2)
      match ex with
      | none => none
      | some (e, r3) =>
        let mag := applyExp ((digitsToNat ip : ℚ) + (digitsToNat fp : ℚ) / 10 ^ fp.length) e
        some ((if sp.1 then -mag else mag), r3)

/-- The mutually recursive entry points of the JSON grammar, merged into one fuelled
function so the recursion is structural: a single value, the items of an array
(`first = true` directly after `'['`), or the members of an object. -/
inductive JMode where
  | value
  | items (first : Bool)
  | members (first : Bool)

/-- Results of `parseJ`: a value, an item list, or a member list. -/
inductive JRes where
  | val (j : Json)
  | list (l : List Json)
  | fields (l : List (String × Json))

/-- The recursive JSON parser. Fuel only bounds the recursion depth; the top-level
wrapper supplies enough fuel that it never runs out on its input. -/
def parseJ : ℕ → JMode → List Char → Option (JRes × List Char)
  | 0, _, _ => none
  | fuel+1, .value, cs0 =>
    match jskipWs cs0 with
    | [] => none
    | c :: rest =>
      if c = '\x7b' then
        match parseJ fuel (.members true) rest with
        | some (.fields l, rest2) => some (.val (Json.obj l), rest2)
        | _ => none
      else if c = '[' then
        match parseJ fuel (.items true) rest with
        | some (.list l, rest2) => some (.val (Json.arr l), rest2)
        | _ => none
      else if c = '"' then
        match parseJString [] rest with
        | some (s, rest2) => some (.val (Json.str s), rest2)
        | none => none
      else if c = 't' then
        if rest.take 3 = ['r', 'u', 'e'] then some (.val (Json.bool true), rest.drop 3) else none
      else if c = 'f' then
        if rest.take 4 = ['a', 'l', 's', 'e'] then some (.val (Json.bool false), rest.drop 4)
        else none
      else if c = 'n' then
        if rest.take 3 = ['u', 'l', 'l'] then some (.val Json.null, rest.drop 3) else none
      else
        match parseJNumber (c :: rest) with
        | some (q, rest2) => some (.val (Json.num q), rest2)
        | none => none
  | fuel+1, .items first, cs0 =>
    match jskipWs cs0 with
    | [] => none
    | c :: rest =>
      if c = ']' then some (.list [], rest)
      else if first then
        match parseJ fuel .value cs0 with
        | some (.val j, rest2) =>
          match parseJ fuel (.items false) rest2 with
          | some (.list l, rest3) => some (.list (j :: l), rest3)
          | _ => none
        | _ => none
      else
        if c = ',' then
          match parseJ fuel .value rest with
          | some (.val j, rest2) =>
            match parseJ fuel (.items false) rest2 with
            | some (.list l, rest3) => some (.list (j :: l), rest3)
            | _ => none
          | _ => none
        else none
  | fuel+1, .members first, cs0 =>
    match jskipWs cs0 with
    | [] => none
    | c :: rest =>
      if c = '\x7d' then some (.fields [], rest)
      else
        let afterComma : Option (List Char) :=
          if first then some (c :: rest)
          else if c = ',' then some (jskipWs rest) else none
        match afterComma with
        | none => none
        | some cs1 =>
          match cs1 with
          | '"' :: rest2 =>
            match parseJString [] rest2 with
            | some (key, rest3) =>
              match jskipWs rest3 with
              | ':' :: rest4 =>
                match parseJ fuel .value rest4 with
                | some (.val j, rest5) =>
                  match parseJ fuel (.members false) rest5 with
                  | some (.fields l, rest6) => some (.fields ((key, j) :: l), rest6)
                  | _ => none
                | _ => none
              | _ => none
            | none => none
          | _ => none

/-- Model of `JSON.parse` (StorageProvider.tsx line 87): `none` models a thrown
`SyntaxError`. The whole input must be consumed up to trailing JSON whitespace. -/
def jsonParse (s : String) : Option Json :=
  match parseJ (2 * s.toList.length + 4) .value s.toList with
  | some (.val j, rest) => if jskipWs rest = [] then some j else none
  | _ => none

mutual

/-- Display form of a JSON value used inside `Array.prototype.toString`: `null`
elements render as the empty string, nested arrays join their elements with commas,
plain objects render as `"[object Object]"`. -/
def jsonDisplayE : Json → String
  | .null => ""
  | .bool b => if b then "true" else "false"
  | .num q => jnumToString (JNum.finite q)
  | .str s => s
  | .arr es => String.intercalate "," (jsonDisplayL es)
  | .obj _ => "[object Object]"

/-- Display forms of a list of JSON array elements. -/
def jsonDisplayL : List Json → List String
  | [] => []
  | j :: js => jsonDisplayE j :: jsonDisplayL js

end

/-- JavaScript runtime values as they can reach the hook's setter or come out of
`parseString`: `undefined`, `null`, booleans, numbers, strings, composite values
produced by `JSON.parse`, and a generic plain (non-array) object. -/
inductive JSValue where
  | undef
  | null
  | bool (b : Bool)
  | num (n : JNum)
  | str (s : String)
  | composite (j : Json)
  | plainObj

/-- Model of JavaScript `String(value)` — the default textual conversion used by the
setter (`String(value)`, StorageProvider.tsx line 208) and by the initialization
effect (`String(defaultValue)`, line 188). `String(undefined)` is `"undefined"`,
a plain object gives `"[object Object]"`, an array joins its displayed elements. -/
def jsToString : JSValue → String
  | .undef => "undefined"
  | .null => "null"
  | .bool b => if b then "true" else "false"
  | .num n => jnumToString n
  | .str s => s
  | .composite j => jsonDisplayE j
  | .plainObj => "[object Object]"

/-- The numeric / boolean / identity tail of `parseString` (StorageProvider.tsx
lines 95-107), reached when the structured stage did not return: if
`parseFloat(input)` is not `NaN` return that number, else return the boolean for
the exact literals `"true"`/`"false"`, else the input string itself. -/
def parseNonJson (input : String) : JSValue :=
  match parseFloat input with
  | JNum.nan =>
    if input = "true" then JSValue.bool true
    else if input = "false" then JSValue.bool false
    else JSValue.str input
  | n => JSValue.num n

/-- Model of `parseString` (StorageProvider.tsx lines 84-108), the value-coercion
engine: try `JSON.parse`; if it succeeds with a non-null object (a composite),
return it; on a parse error or a primitive result fall through to the numeric,
boolean and identity stages in that order. -/
def parseString (input : String) : JSValue :=
  match jsonParse input with
  | some j => if j.isComposite then JSValue.composite j else parseNonJson input
  | none => parseNonJson input

/-- Decidable form of "the structured stage does not claim this input": either
`JSON.parse` fails or its result is not a non-null composite. -/
def notStructuredB (s : String) : Bool :=
  match jsonParse s with
  | some j => !j.isComposite
  | none => true

/-- The `localStorage` backend: an association list from keys to persisted strings,
newest binding first. -/
structure Backend where
  items : List (String × String)
deriving DecidableEq

/-- Model of `localStorage.getItem`: the most recent binding, `none` for absent. -/
def Backend.getItem (b : Backend) (k : String) : Option String :=
  (b.items.find? (fun p => p.1 == k)).map (fun p => p.2)

/-- Model of `localStorage.setItem`. -/
def Backend.setItem (b : Backend) (k v : String) : Backend :=
  ⟨(k, v) :: b.items.filter (fun p => p.1 != k)⟩

/-- The only fault the core defines: the getter's thrown `Error` about state
inconsistency between RAM and localStorage, modelled as an explicit result. -/
inductive StorageFault where
  | consistencyFault
deriving DecidableEq

/-- Model of the `useStorage` getter (StorageProvider.tsx lines 194-205). `raw` is
the hook's cached string state (`useState<string>()`, line 178), `none` while still
in its unset initial state. The getter re-reads `localStorage.getItem(name) ?? ""`,
throws on an `Object.is` mismatch with the cache, and otherwise coerces the
snapshot. (`Object.is` on a `string | undefined` and a `string` is exactly equality
of `Option String` with `some`.) -/
def readCell (b : Backend) (name : String) (raw : Option String) :
    Except StorageFault JSValue :=
  let rawLS : String := (b.getItem name).getD ""
  if raw = some rawLS then Except.ok (parseString rawLS)
  else Except.error StorageFault.consistencyFault

/-- Model of the `useStorage` setter (StorageProvider.tsx lines 207-211): persist
`String(value)` and cache the same string. Returns the new backend and cache. -/
def writeCell (b : Backend) (name : String) (v : JSValue) : Backend × Option String :=
  let rawValue := jsToString v
  (b.setItem name rawValue, some rawValue)

/-- JavaScript truthiness of the `string | null` returned by `getItem`: `null` and
the empty string are falsy. -/
def truthyOptStr : Option String → Bool
  | none => false
  | some s => !s.isEmpty

/-- Model of the `useStorage` initialization effect (StorageProvider.tsx lines
182-191): read `localStorage.getItem(name)`; if the result is truthy adopt it as
the cache; otherwise persist and adopt `String(defaultValue)`. An omitted
`defaultValue` is JavaScript `undefined`, i.e. `JSValue.undef`; the source's
`String(defaultValue) ?? ""` never falls back to `""` because `String(...)` is
never nullish. Returns the new backend and cache. -/
def initCell (b : Backend) (name : String) (defaultValue : JSValue) :
    Backend × Option String :=
  let currVal := b.getItem name
  if truthyOptStr currVal then (b, currVal)
  else
    let rawDefault := jsToString defaultValue
    (b.setItem name rawDefault, some rawDefault)

/-- The value held by the shared-cell broadcaster: either the `[]` placeholder used
as the context default (StorageContext.ts line 4) or a provided getter/setter pair
(StorageProvider.tsx line 64). The getter slot holds the provider's current value
and the setter slot its write function, as in `UseStorageDispatch`. -/
inductive StorageContextValue where
  | empty
  | provided (getter : Except StorageFault JSValue) (setter : JSValue → Backend × Option String)

/-- The default value passed to `createContext` (StorageContext.ts line 4): the
empty tuple `[]`. -/
def storageContextDefault : StorageContextValue := StorageContextValue.empty

/-- Model of `useStorageContext` (useStorageContext.ts lines 45-49): `useContext`
returns the value of the nearest enclosing provider, or the context default when no
provider is active. The list is the stack of active providers, nearest first. -/
def useStorageContext (providers : List StorageContextValue) : StorageContextValue :=
  match providers with
  | [] => storageContextDefault
  | v :: _ => v

theorem natToDigitsRev_eq_digits : ∀ fuel n, n ≤ fuel → natToDigitsRev fuel n = Nat.digits 10 n := by
  intro fuel
  induction fuel with
  | zero => intro n hn; interval_cases n; simp [natToDigitsRev]
  | succ f ih =>
    intro n hn
    by_cases h0 : n = 0
    · subst h0; simp [natToDigitsRev]
    · have hdiv : n / 10 ≤ f := by
        have := Nat.div_lt_self (Nat.pos_of_ne_zero h0) (show 1 < 10 by norm_num)
        omega
      rw [natToDigitsRev, if_neg h0, Nat.digits_def' (by norm_num) (Nat.pos_of_ne_zero h0),
        ih (n / 10) hdiv]

theorem digitsToNat_go (ds : List Char) : ∀ a : ℕ,
    ds.foldl (fun a c => 10 * a + digitToNat c) a = a * 10 ^ ds.length + digitsToNat ds := by
  induction ds with
  | nil => intro a; simp [digitsToNat]
  | cons c cs ih =>
    intro a
    show cs.foldl _ (10 * a + digitToNat c) = _
    rw [ih (10 * a + digitToNat c)]
    have : digitsToNat (c :: cs) = digitToNat c * 10 ^ cs.length + digitsToNat cs := by
      show cs.foldl _ (10 * 0 + digitToNat c) = _
      rw [ih (10 * 0 + digitToNat c)]; ring
    rw [this]
    simp [List.length_cons]
    ring

theorem digitsToNat_append (l1 l2 : List Char) :
    digitsToNat (l1 ++ l2) = digitsToNat l1 * 10 ^ l2.length + digitsToNat l2 := by
  show (l1 ++ l2).foldl _ 0 = _
  rw [List.foldl_append, show l1.foldl (fun a c => 10 * a + digitToNat c) 0 = digitsToNat l1
    from rfl, digitsToNat_go]

theorem digitToNat_digitChar (d : ℕ) (h : d < 10) : digitToNat (Nat.digitChar d) = d := by
  interval_cases d <;> rfl

theorem isDigit_digitChar (d : ℕ) (h : d < 10) : (Nat.digitChar d).isDigit = true := by
  interval_cases d <;> rfl

theorem digitsToNat_rev_map (ds : List ℕ) (h : ∀ d ∈ ds, d < 10) :
    digitsToNat ((ds.map Nat.digitChar).reverse) = Nat.ofDigits 10 ds := by
  induction ds with
  | nil => rfl
  | cons d rest ih =>
    rw [List.map_cons, List.reverse_cons, digitsToNat_append,
      ih (fun x hx => h x (List.mem_cons_of_mem _ hx)), Nat.ofDigits_cons]
    have hd : digitsToNat [Nat.digitChar d] = d := by
      show 10 * 0 + digitToNat (Nat.digitChar d) = d
      rw [digitToNat_digitChar d (h d (List.mem_cons_self _ _))]
      omega
    rw [hd]
    simp
    ring

theorem digitsToNat_natDigitChars (n : ℕ) : digitsToNat (natDigitChars n) = n := by
  rw [natDigitChars, natToDigitsRev_eq_digits n n le_rfl,
    digitsToNat_rev_map _ (fun d hd => Nat.digits_lt_base (by norm_num) hd),
    Nat.ofDigits_digits]

theorem mem_natDigitChars_isDigit (n : ℕ) : ∀ c ∈ natDigitChars n, c.isDigit = true := by
  intro c hc
  rw [natDigitChars, List.mem_reverse, List.mem_map] at hc
  obtain ⟨d, hd, rfl⟩ := hc
  rw [natToDigitsRev_eq_digits n n le_rfl] at hd
  exact isDigit_digitChar d (Nat.digits_lt_base (by norm_num) hd)

theorem digitsToNat_padZeros (len : ℕ) (ds : List Char) :
    digitsToNat (padZeros len ds) = digitsToNat ds := by
  rw [padZeros, digitsToNat_append]
  have : ∀ j, digitsToNat (List.replicate j '0') = 0 := by
    intro j
    induction j with
    | zero => rfl
    | succ i ih =>
      rw [List.replicate_succ]
      show (List.replicate i '0').foldl _ (10 * 0 + digitToNat '0') = 0
      have h0 : (10 * 0 + digitToNat '0') = 0 := rfl
      rw [h0]
      exact ih
  rw [this]
  ring

theorem padZeros_all_digits (len : ℕ) (ds : List Char) (h : ∀ c ∈ ds, c.isDigit = true) :
    ∀ c ∈ padZeros len ds, c.isDigit = true := by
  intro c hc
  rw [padZeros, List.mem_append] at hc
  rcases hc with hc | hc
  · rw [List.eq_of_mem_replicate hc]; rfl
  · exact h c hc

theorem padZeros_length (len : ℕ) (ds : List Char) :
    (padZeros len ds).length = max len ds.length := by
  rw [padZeros]
  simp
  omega

theorem digit_ne (c c0 : Char) (h : c.isDigit = true) (h0 : c0.isDigit = false) : c ≠ c0 := by
  intro he
  rw [he, h0] at h
  exact Bool.noConfusion h

theorem not_isWsChar_of_isDigit (c : Char) (h : c.isDigit = true) : isWsChar c = false := by
  rw [isWsChar]
  apply decide_eq_false
  rintro (rfl | rfl | rfl | rfl | rfl | rfl) <;> exact absurd h (by decide)

theorem take_ne_infinityToList (c : Char) (tl : List Char) (h : c.isDigit = true) :
    (c :: tl).take 8 ≠ "Infinity".toList := by
  intro he
  rw [List.take_succ_cons, show "Infinity".toList = 'I' :: "nfinity".toList from rfl] at he
  exact digit_ne c 'I' h (by decide) (List.cons.injEq _ _ _ _ ▸ he).1

theorem takeWhile_all_append (p : Char → Bool) (l1 l2 : List Char) (h : ∀ c ∈ l1, p c = true) :
    (l1 ++ l2).takeWhile p = l1 ++ l2.takeWhile p := by
  induction l1 with
  | nil => simp
  | cons c cs ih =>
    rw [List.cons_append, List.takeWhile_cons_of_pos (h c (List.mem_cons_self _ _)),
      ih (fun x hx => h x (List.mem_cons_of_mem _ hx))]
    rfl

theorem takeWhile_all (p : Char → Bool) (l : List Char) (h : ∀ c ∈ l, p c = true) :
    l.takeWhile p = l := by
  have := takeWhile_all_append p l [] h
  simpa using this

theorem parseFloatMag_render (n k : ℕ) :
    parseFloatMag (renderDecCharsNat n k) = JNum.finite ((n : ℚ) / 10 ^ k) := by
  rw [renderDecCharsNat]
  set ds := padZeros (k + 1) (natDigitChars n) with hds
  have hdig : ∀ c ∈ ds, c.isDigit = true :=
    padZeros_all_digits _ _ (mem_natDigitChars_isDigit n)
  have hlen : k + 1 ≤ ds.length := by rw [hds, padZeros_length]; omega
  set ip := ds.take (ds.length - k) with hip
  set fp := ds.drop (ds.length - k) with hfp
  set tail := (if k = 0 then ([] : List Char) else '.' :: fp) with htail
  have hiplen : ip.length = ds.length - k := by rw [hip, List.length_take]; omega
  have hfplen : fp.length = k := by rw [hfp, List.length_drop]; omega
  have hipd : ∀ c ∈ ip, c.isDigit = true := fun c hc => hdig c (List.take_subset _ _ hc)
  have hfpd : ∀ c ∈ fp, c.isDigit = true := fun c hc => hdig c (List.drop_subset _ _ hc)
  have hsplit : ip ++ fp = ds := by rw [hip, hfp]; exact List.take_append_drop _ _
  obtain ⟨c0, ip', hc0⟩ : ∃ c0 ip', ip = c0 :: ip' := by
    cases hip2 : ip with
    | nil =>
      exfalso
      have := hiplen
      rw [hip2] at this
      simp at this
      omega
    | cons a l => exact ⟨a, l, rfl⟩
  have hc0d : c0.isDigit = true := hipd c0 (hc0 ▸ List.mem_cons_self _ _)
  have htailtw : tail.takeWhile Char.isDigit = [] := by
    rw [htail]
    by_cases hk : k = 0
    · rw [if_pos hk]; rfl
    · rw [if_neg hk, List.takeWhile_cons_of_neg (by decide)]
  have htw : (ip ++ tail).takeWhile Char.isDigit = ip := by
    rw [takeWhile_all_append _ _ _ hipd, htailtw, List.append_nil]
  have hdrop : (ip ++ tail).drop ip.length = tail := List.drop_left _ _
  have hfr : splitFrac tail = (fp, []) := by
    rw [htail]
    by_cases hk : k = 0
    · rw [if_pos hk]
      have : fp = [] := by
        rw [hfp]
        apply List.drop_eq_nil_of_le
        omega
      rw [this]
      rfl
    · rw [if_neg hk, splitFrac, if_pos rfl, takeWhile_all _ _ hfpd, List.drop_length]
  have hinf : ¬((ip ++ tail).take 8 = "Infinity".toList) := by
    rw [hc0]
    exact take_ne_infinityToList c0 _ hc0d
  rw [parseFloatMag, if_neg hinf]
  simp only [htw, hdrop, hfr]
  rw [if_neg (by rw [hc0]; simp)]
  have hdtn : digitsToNat ip * 10 ^ k + digitsToNat fp = n := by
    have h1 : digitsToNat ds = n := by
      rw [hds, digitsToNat_padZeros, digitsToNat_natDigitChars]
    rw [← h1, ← hsplit, digitsToNat_append, hfplen]
  have hval : (digitsToNat ip : ℚ) + (digitsToNat fp : ℚ) / 10 ^ fp.length
      = (n : ℚ) / 10 ^ k := by
    rw [hfplen, ← hdtn]
    push_cast
    field_simp
  rw [show parseExpPart [] = 0 from rfl, applyExp, if_pos le_rfl]
  rw [hval]
  norm_num

theorem dropWhile_ws_of_digit_head (c : Char) (tl : List Char) (h : c.isDigit = true) :
    (c :: tl).dropWhile isWsChar = c :: tl := by
  rw [List.dropWhile_cons, not_isWsChar_of_isDigit c h]
  rfl

theorem readSign_digit_head (c : Char) (tl : List Char) (h : c.isDigit = true) :
    readSign (c :: tl) = (false, c :: tl) := by
  rw [readSign, if_neg (digit_ne c '-' h (by decide)), if_neg (digit_ne c '+' h (by decide))]

theorem renderDecCharsNat_cons (n k : ℕ) :
    ∃ c tl, renderDecCharsNat n k = c :: tl ∧ c.isDigit = true := by
  rw [renderDecCharsNat]
  set ds := padZeros (k + 1) (natDigitChars n) with hds
  set tail := (if k = 0 then ([] : List Char) else '.' :: ds.drop (ds.length - k)) with htail
  have hdig : ∀ c ∈ ds, c.isDigit = true :=
    padZeros_all_digits _ _ (mem_natDigitChars_isDigit n)
  have hlen : k + 1 ≤ ds.length := by rw [hds, padZeros_length]; omega
  have hiplen : (ds.take (ds.length - k)).length = ds.length - k := by
    rw [List.length_take]; omega
  cases hip2 : ds.take (ds.length - k) with
  | nil =>
    exfalso
    rw [hip2] at hiplen
    simp at hiplen
    omega
  | cons a l =>
    refine ⟨a, l ++ tail, rfl, ?_⟩
    exact hdig a (List.take_subset _ _ (hip2 ▸ List.mem_cons_self _ _))

theorem parseFloat_renderDecimal (m : ℤ) (k : ℕ) :
    parseFloat (renderDecimal m k) = JNum.finite ((m : ℚ) / 10 ^ k) := by
  obtain ⟨c0, tl, hcons, hc0d⟩ := renderDecCharsNat_cons m.natAbs k
  rcases le_or_lt 0 m with hm | hm
  · have hne : ¬(m < 0) := not_lt.mpr hm
    have habs : ((m.natAbs : ℚ)) = (m : ℚ) := by
      rw [Int.cast_natAbs]
      exact_mod_cast abs_of_nonneg hm
    have hrd : (renderDecimal m k).toList = renderDecCharsNat m.natAbs k := by
      rw [renderDecimal]
      show (if m < 0 then ['-'] else []) ++ renderDecCharsNat m.natAbs k = _
      rw [if_neg hne, List.nil_append]
    simp only [parseFloat]
    rw [hrd, hcons, dropWhile_ws_of_digit_head c0 tl hc0d, readSign_digit_head c0 tl hc0d]
    show parseFloatMag (c0 :: tl) = _
    rw [← hcons, parseFloatMag_render, habs]
  · have habs : ((m.natAbs : ℚ)) = -(m : ℚ) := by
      rw [Int.cast_natAbs]
      exact_mod_cast abs_of_neg hm
    have hrd : (renderDecimal m k).toList = '-' :: renderDecCharsNat m.natAbs k := by
      rw [renderDecimal]
      show (if m < 0 then ['-'] else []) ++ renderDecCharsNat m.natAbs k = _
      rw [if_pos hm]
      rfl
    simp only [parseFloat]
    rw [hrd, List.dropWhile_cons, show isWsChar '-' = false from rfl]
    show (parseFloatMag (readSign ('-' :: renderDecCharsNat m.natAbs k)).2).neg = _
    rw [show readSign ('-' :: renderDecCharsNat m.natAbs k)
      = (true, renderDecCharsNat m.natAbs k) from rfl]
    show (parseFloatMag (renderDecCharsNat m.natAbs k)).neg = _
    rw [parseFloatMag_render, JNum.neg]
    rw [habs, neg_div, neg_neg]

theorem parseFloat_jnumToString_finite (q : ℚ) (h : q.den ∣ 10 ^ decExp q) :
    parseFloat (jnumToString (JNum.finite q)) = JNum.finite q := by
  rw [jnumToString, parseFloat_renderDecimal, decMantissa]
  have hcmul : (10 ^ decExp q / q.den) * q.den = 10 ^ decExp q := Nat.div_mul_cancel h
  have hc0 : (10 ^ decExp q / q.den) ≠ 0 := by
    intro h0
    rw [h0, zero_mul] at hcmul
    exact absurd hcmul.symm (pow_ne_zero (decExp q) (by norm_num))
  have hpow : ((q.den : ℚ)) * ((10 ^ decExp q / q.den : ℕ) : ℚ) = (10 : ℚ) ^ decExp q := by
    exact_mod_cast congrArg (fun n : ℕ => (n : ℚ)) (by rw [mul_comm]; exact hcmul)
  have hcq : ((10 ^ decExp q / q.den : ℕ) : ℚ) ≠ 0 := by exact_mod_cast hc0
  congr 1
  rw [Int.cast_mul, Int.cast_natCast]
  rw [← hpow, mul_div_mul_right _ _ hcq, Rat.num_div_den]

theorem parseJ_value_composite (fuel : ℕ) (cs : List Char) (j : Json) (rest : List Char)
    (h : parseJ (fuel + 1) .value cs = some (.val j, rest))
    (hc : j.isComposite = true) :
    ∃ r tl, jskipWs cs = r :: tl ∧ (r = '\x7b' ∨ r = '[') := by
  simp only [parseJ] at h
  split at h
  · exact absurd h (by simp)
  next c tl heq =>
    refine ⟨c, tl, heq, ?_⟩
    by_cases h1 : c = '\x7b'
    · exact Or.inl h1
    rw [if_neg h1] at h
    by_cases h2 : c = '['
    · exact Or.inr h2
    rw [if_neg h2] at h
    exfalso
    by_cases h3 : c = '"'
    · rw [if_pos h3] at h
      split at h
      all_goals simp_all [Json.isComposite]
      all_goals obtain ⟨hj, -⟩ := h
      all_goals subst hj
      all_goals simp at hc
    rw [if_neg h3] at h
    by_cases h4 : c = 't'
    · rw [if_pos h4] at h
      split at h
      all_goals simp_all [Json.isComposite]
      all_goals obtain ⟨hj, -⟩ := h
      all_goals subst hj
      all_goals simp at hc
    rw [if_neg h4] at h
    by_cases h5 : c = 'f'
    · rw [if_pos h5] at h
      split at h
      all_goals simp_all [Json.isComposite]
      all_goals obtain ⟨hj, -⟩ := h
      all_goals subst hj
      all_goals simp at hc
    rw [if_neg h5] at h
    by_cases h6 : c = 'n'
    · rw [if_pos h6] at h
      split at h
      all_goals simp_all [Json.isComposite]
      all_goals obtain ⟨hj, -⟩ := h
      all_goals subst hj
      all_goals simp at hc
    rw [if_neg h6] at h
    split at h
    all_goals simp_all [Json.isComposite]
    all_goals obtain ⟨hj, -⟩ := h
    all_goals subst hj
    all_goals simp at hc

theorem jsonParse_composite_head (s : String) (j : Json)
    (h : jsonParse s = some j) (hc : j.isComposite = true) :
    ∃ r tl, jskipWs s.toList = r :: tl ∧ (r = '\x7b' ∨ r = '[') := by
  rw [jsonParse] at h
  split at h
  next j2 rest heq =>
    split at h
    · have hj2 : j2 = j := by injection h
      subst hj2
      exact parseJ_value_composite (2 * s.toList.length + 3) s.toList j2 rest heq hc
    · exact absurd h (by simp)
  next hne => exact absurd h (by simp)

theorem jskipWs_cons_of_neg (c : Char) (l : List Char)
    (h : ¬(c = ' ' ∨ c = '\t' ∨ c = '\n' ∨ c = '\r')) :
    jskipWs (c :: l) = c :: l := by
  rw [jskipWs, List.dropWhile_cons]
  rw [decide_eq_false h]
  rfl

theorem notStructuredB_renderDecimal (m : ℤ) (k : ℕ) :
    notStructuredB (renderDecimal m k) = true := by
  rw [notStructuredB]
  cases hj : jsonParse (renderDecimal m k) with
  | none => rfl
  | some j =>
    by_cases hc : j.isComposite = true
    · exfalso
      obtain ⟨r, tl, hr, hror⟩ := jsonParse_composite_head _ _ hj hc
      obtain ⟨c0, tl0, hcons, hc0d⟩ := renderDecCharsNat_cons m.natAbs k
      rcases le_or_lt 0 m with hm | hm
      · have hrd : (renderDecimal m k).toList = c0 :: tl0 := by
          rw [renderDecimal]
          show (if m < 0 then ['-'] else []) ++ renderDecCharsNat m.natAbs k = _
          rw [if_neg (not_lt.mpr hm), List.nil_append, hcons]
        rw [hrd, jskipWs_cons_of_neg c0 tl0 (by
          rintro (rfl | rfl | rfl | rfl) <;> exact absurd hc0d (by decide))] at hr
        have : c0 = r := (List.cons.injEq _ _ _ _ ▸ hr).1
        rcases hror with rfl | rfl <;> subst this <;> exact absurd hc0d (by decide)
      · have hrd : (renderDecimal m k).toList = '-' :: renderDecCharsNat m.natAbs k := by
          rw [renderDecimal]
          show (if m < 0 then ['-'] else []) ++ renderDecCharsNat m.natAbs k = _
          rw [if_pos hm]
          rfl
        rw [hrd, jskipWs_cons_of_neg '-' _ (by rintro (h | h | h | h) <;> exact absurd h (by decide))] at hr
        have : '-' = r := (List.cons.injEq _ _ _ _ ▸ hr).1
        rcases hror with rfl | rfl <;> exact absurd this (by decide)
    · simp only [Bool.not_eq_true] at hc
      show (!j.isComposite) = true
      rw [hc]
      rfl

theorem parseString_eq_parseNonJson (s : String) (h : notStructuredB s = true) :
    parseString s = parseNonJson s := by
  rw [notStructuredB] at h
  rw [parseString]
  cases hj : jsonParse s with
  | none => rfl
  | some j =>
    rw [hj] at h
    simp only [Bool.not_eq_eq_eq_not, Bool.not_true] at h
    simp [h]

theorem parseNonJson_eq (s : String) :
    parseNonJson s =
      if parseFloat s ≠ JNum.nan then JSValue.num (parseFloat s)
      else if s = "true" then JSValue.bool true
      else if s = "false" then JSValue.bool false
      else JSValue.str s := by
  rw [parseNonJson]
  cases hf : parseFloat s with
  | finite q => simp [hf]
  | posInf => simp [hf]
  | negInf => simp [hf]
  | nan => simp [hf]

theorem Backend.getItem_setItem (b : Backend) (k v : String) :
    (b.setItem k v).getItem k = some v := by
  simp [Backend.getItem, Backend.setItem, List.find?]

theorem parseString_objectObject :
    parseString "[object Object]" = JSValue.str "[object Object]" := by
  with_unfolding_all rfl

/-- C1: for a cell whose Cached String is `c`, if the backend currently holds a
Persisted String `p` for the cell's key that differs from `c`, `read()` fails with
the ConsistencyFault; if `p = c`, no fault is raised and the coerced cache is
returned. -/
theorem read_consistency_check (b : Backend) (name c p : String)
    (hp : b.getItem name = some p) :
    (p ≠ c → readCell b name (some c) = Except.error StorageFault.consistencyFault)
    ∧ (p = c → readCell b name (some c) = Except.ok (parseString c)) := by
  constructor
  · intro hne
    simp only [readCell, hp, Option.getD_some]
    rw [if_neg (fun hh => hne (Option.some.inj hh).symm)]
  · rintro rfl
    simp only [readCell, hp, Option.getD_some]
    rw [if_pos trivial]

theorem read_consistency_check_witness :
    readCell ⟨[("k", "2")]⟩ "k" (some "1") = Except.error StorageFault.consistencyFault
    ∧ readCell ⟨[("k", "1")]⟩ "k" (some "1") = Except.ok (parseString "1") := by
  constructor
  · exact (read_consistency_check ⟨[("k", "2")]⟩ "k" "1" "2" (by with_unfolding_all rfl)).1
      (by decide)
  · exact (read_consistency_check ⟨[("k", "1")]⟩ "k" "1" "1" (by with_unfolding_all rfl)).2 rfl

/-- C2: after `write(v)`, a `read()` with no external interference returns
`coerce(String(v))` — `parseString (jsToString v)` — and does not fault. -/
theorem write_then_read_roundtrip (b : Backend) (name : String) (v : JSValue) :
    readCell (writeCell b name v).1 name (writeCell b name v).2
      = Except.ok (parseString (jsToString v)) := by
  simp only [writeCell, readCell, Backend.getItem_setItem, Option.getD_some]
  rw [if_pos trivial]

/-- C3: the coercion tries the structured stage first — whenever `JSON.parse`
succeeds with a non-null composite, that composite is returned (in particular for
the object literal with field `a = 1`) — and only otherwise falls through to the
numeric, boolean and identity stages in that order. -/
theorem structured_parse_precedence :
    (∀ s j, jsonParse s = some j → j.isComposite = true →
        parseString s = JSValue.composite j)
    ∧ parseString "\x7b\"a\":1\x7d" = JSValue.composite (Json.obj [("a", Json.num 1)])
    ∧ (∀ s, notStructuredB s = true →
        parseString s =
          if parseFloat s ≠ JNum.nan then JSValue.num (parseFloat s)
          else if s = "true" then JSValue.bool true
          else if s = "false" then JSValue.bool false
          else JSValue.str s) := by
  refine ⟨?_, by with_unfolding_all rfl, ?_⟩
  · intro s j hj hc
    rw [parseString, hj]
    simp [hc]
  · intro s hs
    rw [parseString_eq_parseNonJson s hs, parseNonJson_eq]

theorem structured_parse_precedence_witness :
    parseString "[1,2]" = JSValue.composite (Json.arr [Json.num 1, Json.num 2])
    ∧ parseString "hello" = JSValue.str "hello" := by
  constructor
  · exact structured_parse_precedence.1 "[1,2]" (Json.arr [Json.num 1, Json.num 2])
      (by with_unfolding_all rfl) rfl
  · have h := structured_parse_precedence.2.2 "hello" (by with_unfolding_all rfl)
    rw [h]
    with_unfolding_all rfl

/-- C4 (failing input): with no Persisted String for `"k"` and no default given
(JavaScript `undefined`), the initialization effect persists and caches the string
`"undefined"` — not the empty string the claim requires — because the source's
`String(defaultValue) ?? ""` stringifies `undefined` before the `??` can apply.
With an explicit default the claim's `String(defaultValue)` behaviour does hold
(second conjunct). -/
theorem init_absent_writes_stringified_default :
    initCell ⟨[]⟩ "k" JSValue.undef = (⟨[("k", "undefined")]⟩, some "undefined")
    ∧ initCell ⟨[]⟩ "k" (JNum.finite 7 |> JSValue.num) = (⟨[("k", "7")]⟩, some "7") := by
  constructor
  · with_unfolding_all rfl
  · with_unfolding_all rfl

/-- C5 counterexample: the numeric stage can return a non-finite number, contrary
to the claim — `coerce("Infinity")` is the number `Infinity`. -/
theorem numeric_stage_infinity_counterexample :
    parseString "Infinity" = JSValue.num JNum.posInf ∧ JNum.posInf.isFinite = false :=
  ⟨by with_unfolding_all rfl, rfl⟩

/-- C5 (amended): for every input not claimed by the structured stage, whenever the
leading run parses to any number at all (`parseFloat` not `NaN`, finite or not),
coercion returns that number; leading-prefix semantics gives `coerce("3abc") = 3`. -/
theorem numeric_stage_leading_prefix :
    (∀ s, notStructuredB s = true → parseFloat s ≠ JNum.nan →
        parseString s = JSValue.num (parseFloat s))
    ∧ parseFloat "3abc" = JNum.finite 3
    ∧ parseString "3abc" = JSValue.num (JNum.finite 3) := by
  refine ⟨?_, by with_unfolding_all rfl, by with_unfolding_all rfl⟩
  intro s hs hn
  rw [parseString_eq_parseNonJson s hs, parseNonJson_eq, if_pos hn]

theorem numeric_stage_leading_prefix_witness :
    parseString "12.5xyz" = JSValue.num (parseFloat "12.5xyz") := by
  refine numeric_stage_leading_prefix.1 "12.5xyz" (by with_unfolding_all rfl) ?_
  rw [show parseFloat "12.5xyz" = JNum.finite (25 / 2) from by with_unfolding_all rfl]
  intro hh
  exact JNum.noConfusion hh

/-- C6 (failing input): a Persisted String that is present but empty is treated as
absent by the initialization effect's truthiness test `if (currVal)`, so instead of
adopting `""` without a write, the effect overwrites the backend with the
stringified default. -/
theorem init_overwrites_empty_persisted :
    initCell ⟨[("k", "")]⟩ "k" (JNum.finite 5 |> JSValue.num)
      = (⟨[("k", "5")]⟩, some "5") := by
  with_unfolding_all rfl

/-- C7 counterexample: round-trip fails for the numeric value `NaN`:
`coerce(String(NaN))` is the string `"NaN"`, not the number `NaN`. -/
theorem coerce_string_nan_counterexample :
    parseString (jnumToString JNum.nan) ≠ JSValue.num JNum.nan
    ∧ parseString (jnumToString JNum.nan) = JSValue.str "NaN" := by
  constructor
  · rw [show parseString (jnumToString JNum.nan) = JSValue.str "NaN" from by
      with_unfolding_all rfl]
    intro hh
    exact JSValue.noConfusion hh
  · with_unfolding_all rfl

/-- C7 (amended): coercion round-trips every finite number whose denominator is a
divisor of a power of ten (every JS double is), and also `±Infinity`; `NaN` comes
back as the string `"NaN"`. Booleans round-trip, and every string not claimed by
the structured, numeric or boolean stages — the empty string included — coerces to
itself. -/
theorem coercion_roundtrip :
    (∀ q : ℚ, q.den ∣ 10 ^ decExp q →
        parseString (jnumToString (JNum.finite q)) = JSValue.num (JNum.finite q))
    ∧ parseString (jnumToString JNum.posInf) = JSValue.num JNum.posInf
    ∧ parseString (jnumToString JNum.negInf) = JSValue.num JNum.negInf
    ∧ parseString (jnumToString JNum.nan) = JSValue.str "NaN"
    ∧ (∀ v : Bool, parseString (jsToString (JSValue.bool v)) = JSValue.bool v)
    ∧ (∀ s : String, notStructuredB s = true → parseFloat s = JNum.nan →
        s ≠ "true" → s ≠ "false" → parseString s = JSValue.str s)
    ∧ parseString "" = JSValue.str "" := by
  refine ⟨?_, by with_unfolding_all rfl, by with_unfolding_all rfl, by with_unfolding_all rfl,
    ?_, ?_, by with_unfolding_all rfl⟩
  · intro q hq
    have h1 : notStructuredB (jnumToString (JNum.finite q)) = true := by
      rw [jnumToString]
      exact notStructuredB_renderDecimal _ _
    rw [parseString_eq_parseNonJson _ h1, parseNonJson_eq,
      if_pos (by rw [parseFloat_jnumToString_finite q hq]; intro hh; exact JNum.noConfusion hh),
      parseFloat_jnumToString_finite q hq]
  · intro v
    cases v
    · with_unfolding_all rfl
    · with_unfolding_all rfl
  · intro s hs hn ht hf
    rw [parseString_eq_parseNonJson s hs, parseNonJson_eq, if_neg (by rw [hn]; simp),
      if_neg ht, if_neg hf]

theorem coercion_roundtrip_witness :
    (((3 : ℚ) / 2).den ∣ 10 ^ decExp ((3 : ℚ) / 2))
    ∧ parseString (jnumToString (JNum.finite ((3 : ℚ) / 2)))
        = JSValue.num (JNum.finite ((3 : ℚ) / 2))
    ∧ parseString "hello" = JSValue.str "hello" := by
  have hden : ((3 : ℚ) / 2).den ∣ 10 ^ decExp ((3 : ℚ) / 2) := ⟨5, by with_unfolding_all rfl⟩
  have hns : notStructuredB "hello" = true := by with_unfolding_all rfl
  have hnn : parseFloat "hello" = JNum.nan := by with_unfolding_all rfl
  exact ⟨hden, coercion_roundtrip.1 _ hden,
    coercion_roundtrip.2.2.2.2.2.1 "hello" hns hnn (by decide) (by decide)⟩

/-- C8: reading the broadcaster with no active provider yields the defined empty
placeholder pair (the `[]` default of `createContext`), with no fault raised — the
accessor is total. -/
theorem unprovided_broadcaster_placeholder :
    useStorageContext [] = StorageContextValue.empty
    ∧ storageContextDefault = StorageContextValue.empty :=
  ⟨rfl, rfl⟩

/-- C9: `write(v)` persists exactly `String(v)`; a plain object is persisted as the
string `"[object Object]"`, so the subsequent read returns that string and not a
composite value. -/
theorem write_persists_string_conversion :
    (∀ b name v, ((writeCell b name v).1).getItem name = some (jsToString v))
    ∧ jsToString JSValue.plainObj = "[object Object]"
    ∧ (∀ b name,
        readCell (writeCell b name JSValue.plainObj).1 name
            (writeCell b name JSValue.plainObj).2
          = Except.ok (JSValue.str "[object Object]")) := by
  refine ⟨?_, rfl, ?_⟩
  · intro b name v
    simp only [writeCell]
    exact Backend.getItem_setItem b name (jsToString v)
  · intro b name
    simp only [writeCell, readCell, Backend.getItem_setItem, Option.getD_some]
    rw [if_pos trivial]
    show Except.ok (parseString "[object Object]") = _
    rw [parseString_objectObject]

/-- C10: a `read()` before the initialization effect has run — the cache still in
its unset `undefined` state — always raises the consistency fault, whatever the
backend holds, because `undefined` never equals the string snapshot
`getItem(name) ?? ""`. -/
theorem read_before_init_faults (b : Backend) (name : String) :
    readCell b name none = Except.error StorageFault.consistencyFault := by
  simp only [readCell]
  rw [if_neg (fun hh => Option.noConfusion hh)]
